import Mathlib

/-!
Shallow embedding of `channel_tracker.py`, the posting-detection and
streak/reminder state engine of the per-server TikTok post tracker bot.

Modelling conventions:
* Python dicts become insertion-ordered association lists
  (`List (String × β)`); `lookupKey`, `setKey` and `eraseKey` mirror
  `d[k]`, `d[k] = v` and `del d[k]`.
* Calendar dates (the `'%Y-%m-%d'` strings) become day numbers (`Nat`,
  days since an epoch).  Real dates lie far from day 0, so theorems
  about `today - 1` carry a `1 ≤ today` hypothesis where that matters.
  Differences that Python computes on `datetime`s are taken in `Int`,
  matching `timedelta.days` exactly for date-valued operands.
* `datetime.now()` is a day number plus the minutes elapsed since
  midnight (`m < 1440`); only `get_posts_in_period` compares below day
  resolution, every other call site uses just the day number.
* A stored date field is a `StoredDate`: `unset` models JSON `null`
  (falsy in the `if last_posted:` tests), `date d` models a well-formed
  `'%Y-%m-%d'` string, and `malformed` models a non-empty string that
  `datetime.strptime` rejects by raising `ValueError`.
* Persistence: `load_data` takes the outcome of the file read/parse as
  an `Except` value; `save_data` is modelled by recording in each
  result whether (and with which snapshot) a save was issued.
-/

/-- Association-list lookup, mirroring Python `d[k]` / `k in d`. -/
def lookupKey {β : Type} {α : Type} [DecidableEq α] (k : α) : List (α × β) → Option β
  | [] => none
  | (k', v) :: rest => if k' = k then some v else lookupKey k rest

/-- Association-list update, mirroring Python `d[k] = v` (in-place
update of an existing key, append of a new one). -/
def setKey {β : Type} {α : Type} [DecidableEq α] (k : α) (v : β) : List (α × β) → List (α × β)
  | [] => [(k, v)]
  | (k', v') :: rest => if k' = k then (k, v) :: rest else (k', v') :: setKey k v rest

/-- Association-list deletion, mirroring Python `del d[k]`. -/
def eraseKey {β : Type} {α : Type} [DecidableEq α] (k : α) : List (α × β) → List (α × β)
  | [] => []
  | (k', v') :: rest => if k' = k then rest else (k', v') :: eraseKey k rest

/-- A date field as stored in `server_tracking.json`: absent/`null`,
a well-formed `'%Y-%m-%d'` string (as a day number), or a non-empty
string that `strptime` rejects. -/
inductive StoredDate where
  | unset
  | date (d : Nat)
  | malformed
deriving DecidableEq, Repr, Inhabited

/-- One value of `data['posts'][unique_key][date]` (source lines
126-130): original event timestamp plus channel/guild labels. -/
structure PostEntry where
  timestamp : String
  channel : String
  guild : String
deriving DecidableEq, Repr, Inhabited

/-- One value of `data['creators'][unique_key]` (source lines 106-118). -/
structure CreatorRecord where
  name : String
  guild_id : String
  guild_name : String
  creator_id : String
  channel_id : String
  joined : Nat
  total_posts : Nat
  current_streak : Nat
  best_streak : Nat
  last_posted : StoredDate
  last_reminded : StoredDate
deriving DecidableEq, Repr, Inhabited

/-- One value of `data['tracked_channels'][channel_id]` (source lines
201-208). -/
structure ChannelReg where
  creator_id : String
  creator_name : String
  guild_id : String
  guild_name : String
  setup_by : String
  setup_date : Nat
deriving DecidableEq, Repr, Inhabited

/-- The persisted snapshot `server_tracking.json`: the three maps of
source lines 35-39. -/
structure Data where
  tracked_channels : List (String × ChannelReg)
  creators : List (String × CreatorRecord)
  posts : List (String × List (Nat × PostEntry))
deriving DecidableEq, Repr, Inhabited

/-- The fresh snapshot returned by `load_data`'s `except` branch
(source lines 34-39). -/
def freshData : Data := { tracked_channels := [], creators := [], posts := [] }

/-- Outcome of an attempted file operation by the persistence
collaborator. -/
inductive IOErr where
  | ioFailure
deriving DecidableEq, Repr, Inhabited

/-- Source lines 29-39: `load_data` tries to read and parse the data
file; on ANY exception it returns the fresh empty snapshot.  The
argument is the outcome of the underlying read/parse. -/
def load_data : Except IOErr Data → Data
  | .ok d => d
  | .error _ => freshData

/-- Source line 17: `REMINDER_DAYS = 2`. -/
def REMINDER_DAYS : Int := 2

/-- Source lines 106-118: the zeroed creator record created when
`unique_key` is new. -/
def initCreator (today : Nat) (creator_name guild_id guild_name creator_id channel_id : String) :
    CreatorRecord :=
  { name := creator_name
    guild_id := guild_id
    guild_name := guild_name
    creator_id := creator_id
    channel_id := channel_id
    joined := today
    total_posts := 0
    current_streak := 0
    best_streak := 0
    last_posted := StoredDate.unset
    last_reminded := StoredDate.unset }

/-- Source lines 132-148: counter, streak and best-streak update on a
credited event.  `plogNew` is `data['posts'][unique_key]` AFTER the
insertion of today's entry, exactly as the source's `yesterday in
data['posts'][unique_key]` test sees it. -/
def updatedCreator (today : Nat) (creator_name : String)
    (plogNew : List (Nat × PostEntry)) (c : CreatorRecord) : CreatorRecord :=
  let c := { c with
    total_posts := c.total_posts + 1
    last_posted := StoredDate.date today
    name := creator_name }
  let yesterday := today - 1
  let c :=
    if (lookupKey yesterday plogNew).isSome then
      { c with current_streak := c.current_streak + 1 }
    else
      { c with current_streak := 1 }
  if c.current_streak > c.best_streak then { c with best_streak := c.current_streak } else c

/-- Result of the posting ledger: whether the event was credited,
whether (and with which snapshot) `save_data` was called, and the
in-memory dict at the end of the handler (discarded unless saved). -/
structure RecordResult where
  accepted : Bool
  saved : Option Data
  memData : Data
deriving DecidableEq, Repr

/-- Source lines 104-122: create `data['creators'][unique_key]` (with
zeroed counters) and `data['posts'][unique_key]` when absent. -/
def ensureEntries (today : Nat)
    (creator_name guild_id guild_name creator_id channel_id unique_key : String)
    (data : Data) : Data :=
  let data :=
    if (lookupKey unique_key data.creators).isNone then
      let c0 := initCreator today creator_name guild_id guild_name creator_id channel_id
      { data with creators := setKey unique_key c0 data.creators }
    else data
  if (lookupKey unique_key data.posts).isNone then
    { data with posts := setKey unique_key [] data.posts }
  else data

/-- Source lines 98-172 (the credit path of `on_message` once the
channel is tracked and a keyword matched): initialize the creator and
post map when new, dedup on today's date, record the post, update the
stats and save; on a duplicate, reply only — no mutation is saved. -/
def recordEvent (today : Nat) (timestamp : String)
    (guild_id creator_id creator_name channel_id guild_name channel_name : String)
    (data : Data) : RecordResult :=
  let unique_key := guild_id ++ "_" ++ creator_id
  let data := ensureEntries today creator_name guild_id guild_name creator_id channel_id
    unique_key data
  let plog := (lookupKey unique_key data.posts).getD []
  if (lookupKey today plog).isNone then
    let plog := setKey today
      { timestamp := timestamp, channel := channel_name, guild := guild_name } plog
    let data := { data with posts := setKey unique_key plog data.posts }
    let c := (lookupKey unique_key data.creators).getD default
    let c := updatedCreator today creator_name plog c
    let data := { data with creators := setKey unique_key c data.creators }
    { accepted := true, saved := some data, memData := data }
  else
    { accepted := false, saved := none, memData := data }

/-- Source line 89: the qualifying marker vocabulary. -/
def posted_keywords : List String :=
  ["posted", "done", "uploaded", "posted for today", "posted today"]

/-- Source line 91: case-insensitive substring match of any keyword —
`keyword in message.content.lower()`.  The lowering is applied to the
character list of the content (the keywords are literal lowercase). -/
def containsMarker (content : String) : Bool :=
  posted_keywords.any (fun kw => decide (kw.toList <:+: content.toList.map Char.toLower))

/-- An inbound chat message as delivered by the platform adapter.
`createdAt` is the calendar day of the message's own timestamp; the
source never reads it (`on_message` derives dates from
`datetime.now()` only). -/
structure Message where
  authorBot : Bool
  guild : Option (String × String)
  channelId : String
  channelName : String
  content : String
  createdAt : Nat
deriving DecidableEq, Repr

/-- Observable outcome of one `on_message` call: the snapshot passed
to `save_data` (if any), the credit decision (`none` when the credit
path was not reached), and whether the message fell through to
`bot.process_commands`. -/
structure OnMessageResult where
  saved : Option Data
  accepted : Option Bool
  processedCommands : Bool
deriving DecidableEq, Repr

/-- Source lines 68-175: the `on_message` handler.  Bot messages and
DMs return before `load_data`; otherwise the stored snapshot is
loaded, the channel registration and keyword are checked, and the
credit path (`recordEvent`) runs; every non-early-return path ends in
`bot.process_commands`. -/
def onMessage (today : Nat) (timestamp : String) (msg : Message) (stored : Data) :
    OnMessageResult :=
  if msg.authorBot then { saved := none, accepted := none, processedCommands := false }
  else
    match msg.guild with
    | none => { saved := none, accepted := none, processedCommands := false }
    | some (guild_id, guild_name) =>
      let data := stored
      let channel_id := msg.channelId
      match lookupKey channel_id data.tracked_channels with
      | some ch =>
        if containsMarker msg.content then
          let r := recordEvent today timestamp guild_id ch.creator_id ch.creator_name
            channel_id guild_name msg.channelName data
          { saved := r.saved, accepted := some r.accepted, processedCommands := true }
        else { saved := none, accepted := none, processedCommands := true }
      | none => { saved := none, accepted := none, processedCommands := true }

/-- One full handler run against the persistence collaborator:
`loadOutcome` is the result of reading the data file (absorbed by
`load_data`), `saveOutcome` the result of the write when the handler
calls `save_data` — the source has no handler around `save_data`, so
a failing save propagates. -/
def onMessageFromStore (loadOutcome : Except IOErr Data) (saveOutcome : Except IOErr Unit)
    (today : Nat) (timestamp : String) (msg : Message) : Except IOErr OnMessageResult :=
  let data := load_data loadOutcome
  let r := onMessage today timestamp msg data
  match r.saved with
  | none => .ok r
  | some _ =>
    match saveOutcome with
    | .ok _ => .ok r
    | .error e => .error e

/-- Source lines 317-330: `get_posts_in_period`.  `now` is day `t`
plus `m` minutes past midnight; `cutoff = now - timedelta(days)`, and
a stored date `d` (midnight) is counted when `d ≥ cutoff`, i.e. when
`d * 1440 ≥ t * 1440 + m - days * 1440` in minutes. -/
def get_posts_in_period (data : Data) (unique_key : String) (days : Nat) (t m : Nat) : Nat :=
  match lookupKey unique_key data.posts with
  | none => 0
  | some plog =>
    (plog.filter (fun p =>
      decide ((p.1 : Int) * 1440 ≥ (t : Int) * 1440 + (m : Int) - (days : Int) * 1440))).length

/-- The query-layer operation: the source calls `load_data` and never
`save_data`, so the saved-snapshot component is always `none`. -/
def windowCount (data : Data) (unique_key : String) (days : Nat) (t m : Nat) :
    Nat × Option Data :=
  (get_posts_in_period data unique_key days t m, none)

/-- A stored date failed to parse (`datetime.strptime` raised). -/
inductive ParseErr where
  | badDate
deriving DecidableEq, Repr

/-- Source lines 340-354: the per-record reminder decision.
Returns `ok none` when no reminder is due, `ok (some dsp)` with
`dsp = days_since_post` when one is due, and an error when a stored
date fails to parse (the source parses outside any `try`). -/
def evalRecord (today : Nat) (r : CreatorRecord) : Except ParseErr (Option Int) :=
  match r.last_posted with
  | .unset => .ok none
  | .malformed => .error .badDate
  | .date dp =>
    let days_since_post : Int := (today : Int) - (dp : Int)
    if days_since_post ≥ REMINDER_DAYS then
      match r.last_reminded with
      | .unset => .ok (some days_since_post)
      | .malformed => .error .badDate
      | .date dr =>
        if (today : Int) - (dr : Int) < REMINDER_DAYS then .ok none
        else .ok (some days_since_post)
    else .ok none

/-- A reminder intent handed to the delivery collaborator:
the creator key and the `days_since_post` figure shown in the DM. -/
structure Intent where
  key : String
  daysSincePost : Int
deriving DecidableEq, Repr

/-- Outcome of one `check_reminders` tick: the intents attempted, the
creators map as persisted at the end, and whether an unparsable date
aborted the pass. -/
structure TickResult where
  intents : List Intent
  creators : List (String × CreatorRecord)
  aborted : Bool
deriving DecidableEq, Repr

/-- Source lines 334-395: `check_reminders`.  Iterates the creators
in order; a date that fails to parse raises out of the loop, leaving
the remaining records unprocessed.  When a reminder is due the
delivery attempt runs inside `try`: on success `last_reminded` is set
to today and saved, on failure (`except: pass`) the record is left
unchanged. -/
def checkReminders (today : Nat) (deliverOk : String → Bool) :
    List (String × CreatorRecord) → TickResult
  | [] => { intents := [], creators := [], aborted := false }
  | (k, r) :: rest =>
    match evalRecord today r with
    | .error _ => { intents := [], creators := (k, r) :: rest, aborted := true }
    | .ok none =>
      let t := checkReminders today deliverOk rest
      { intents := t.intents, creators := (k, r) :: t.creators, aborted := t.aborted }
    | .ok (some dsp) =>
      let r' := if deliverOk k then { r with last_reminded := StoredDate.date today } else r
      let t := checkReminders today deliverOk rest
      { intents := { key := k, daysSincePost := dsp } :: t.intents,
        creators := (k, r') :: t.creators, aborted := t.aborted }

/-- Source lines 179-247: the `!setup` command's state transition.
Returns `none` when no save happened (channel already tracked). -/
def setupChannel (today : Nat)
    (guild_id guild_name channel_id creator_id creator_name author_id : String)
    (data : Data) : Option Data :=
  if (lookupKey channel_id data.tracked_channels).isSome then none
  else
    let reg : ChannelReg :=
      { creator_id := creator_id, creator_name := creator_name, guild_id := guild_id,
        guild_name := guild_name, setup_by := author_id, setup_date := today }
    let data := { data with tracked_channels := setKey channel_id reg data.tracked_channels }
    let unique_key := guild_id ++ "_" ++ creator_id
    let data :=
      if (lookupKey unique_key data.creators).isNone then
        let c0 := initCreator today creator_name guild_id guild_name creator_id channel_id
        { data with creators := setKey unique_key c0 data.creators }
      else data
    some data

/-- Source lines 249-273: the `!unsetup` command's state transition. -/
def unsetupChannel (channel_id : String) (data : Data) : Option Data :=
  if (lookupKey channel_id data.tracked_channels).isNone then none
  else some { data with tracked_channels := eraseKey channel_id data.tracked_channels }

/-- The mutating entry points of the program, for reasoning about
arbitrary operation sequences over the persisted snapshot. -/
inductive Op where
  | record (today : Nat)
      (timestamp guild_id creator_id creator_name channel_id guild_name channel_name : String)
  | tick (today : Nat) (deliverable : List String)
  | setup (today : Nat)
      (guild_id guild_name channel_id creator_id creator_name author_id : String)
  | unsetup (channel_id : String)
deriving DecidableEq, Repr

/-- The persisted snapshot after one operation (an unsaved in-memory
mutation is discarded, as the next handler reloads the file). -/
def applyOp (d : Data) : Op → Data
  | .record t ts gi ci cn chi gn chn =>
    (recordEvent t ts gi ci cn chi gn chn d).saved.getD d
  | .tick t del =>
    { d with creators := (checkReminders t (fun k => del.contains k) d.creators).creators }
  | .setup t gi gn chi ci cn ai => (setupChannel t gi gn chi ci cn ai d).getD d
  | .unsetup chi => (unsetupChannel chi d).getD d

/-- Length of the maximal run of consecutive day numbers in `log`
ending at `d` (the spec's "maximal run of consecutive calendar dates
ending at `last_posted`"). -/
def runLen (log : List Nat) : Nat → Nat
  | 0 => if 0 ∈ log then 1 else 0
  | d + 1 => if d + 1 ∈ log then runLen log d + 1 else 0

/-- Number of intents in `l` addressed to creator `k`. -/
def countKey (k : String) (l : List Intent) : Nat :=
  l.countP (fun i => i.key == k)

/-- The pure reminder decision for a record whose stored dates parse:
`some days_since_post` exactly when a reminder is due. -/
def decisionDSP (today : Nat) (r : CreatorRecord) : Option Int :=
  match evalRecord today r with
  | .ok (some dsp) => some dsp
  | _ => none

/-- Both stored date fields of the record parse (no corruption). -/
def wellFormedDates (r : CreatorRecord) : Prop :=
  r.last_posted ≠ StoredDate.malformed ∧ r.last_reminded ≠ StoredDate.malformed

/-- The per-record invariant claimed by the spec: `current_streak`
never exceeds `best_streak`, for every creator in the snapshot. -/
def streakInv (d : Data) : Prop :=
  ∀ k c, lookupKey k d.creators = some c → c.current_streak ≤ c.best_streak

/-! ### Concrete inputs used by witnesses and counterexamples -/

/-- A registration of channel `"ch"` for creator `"c"` in guild `"g"`. -/
def regW : ChannelReg :=
  { creator_id := "c", creator_name := "C", guild_id := "g", guild_name := "G",
    setup_by := "a", setup_date := 1 }

/-- A snapshot with one tracked channel and no creators or posts. -/
def dTracked : Data := { tracked_channels := [("ch", regW)], creators := [], posts := [] }

/-- A qualifying message in the tracked channel whose own timestamp
lies on day 5. -/
def msgPosted : Message :=
  { authorBot := false, guild := some ("g", "G"), channelId := "ch",
    channelName := "chan", content := "posted", createdAt := 5 }

/-- A sample post-log entry. -/
def eW : PostEntry := { timestamp := "ts", channel := "chan", guild := "G" }

/-- The creator record after a first credited event on day 7. -/
def cW : CreatorRecord :=
  { name := "C", guild_id := "g", guild_name := "G", creator_id := "c", channel_id := "ch",
    joined := 7, total_posts := 1, current_streak := 1, best_streak := 1,
    last_posted := StoredDate.date 7, last_reminded := StoredDate.unset }

/-- A snapshot in which day 7 is already credited for key `"g_c"`. -/
def dDup : Data :=
  { tracked_channels := [("ch", regW)], creators := [("g_c", cW)],
    posts := [("g_c", [(7, eW)])] }

/-- A record that last posted on day 10 and was never reminded:
due for a reminder at day 13. -/
def rDue : CreatorRecord := { cW with last_posted := StoredDate.date 10 }

/-- A record whose stored `last_posted` fails to parse. -/
def rBadDate : CreatorRecord := { cW with last_posted := StoredDate.malformed }

/-! ### Association-list lemmas -/

theorem lookupKey_setKey_self {α β : Type} [DecidableEq α] (k : α) (v : β) (l : List (α × β)) :
    lookupKey k (setKey k v l) = some v := by
  induction l with
  | nil => simp [lookupKey, setKey]
  | cons p rest ih =>
    obtain ⟨k', v'⟩ := p
    by_cases h : k' = k <;> simp [lookupKey, setKey, h, ih]

theorem lookupKey_setKey_ne {α β : Type} [DecidableEq α] {k k' : α} (v : β) (l : List (α × β))
    (h : k' ≠ k) : lookupKey k' (setKey k v l) = lookupKey k' l := by
  induction l with
  | nil => simp [lookupKey, setKey, Ne.symm h]
  | cons p rest ih =>
    obtain ⟨k₀, v₀⟩ := p
    by_cases h₀ : k₀ = k
    · subst h₀
      simp [lookupKey, setKey, Ne.symm h]
    · simp [lookupKey, setKey, h₀, ih]

theorem lookupKey_eq_none_iff {α β : Type} [DecidableEq α] (k : α) (l : List (α × β)) :
    lookupKey k l = none ↔ k ∉ l.map Prod.fst := by
  induction l with
  | nil => simp [lookupKey]
  | cons p rest ih =>
    obtain ⟨k', v'⟩ := p
    by_cases h : k' = k
    · subst h
      simp [lookupKey]
    · simp [lookupKey, h, ih, Ne.symm h]

theorem lookupKey_isSome_iff {α β : Type} [DecidableEq α] (k : α) (l : List (α × β)) :
    (lookupKey k l).isSome = true ↔ k ∈ l.map Prod.fst := by
  rcases hl : lookupKey k l with _ | v
  · simp [(lookupKey_eq_none_iff k l).mp hl]
  · simp only [Option.isSome_some, true_iff]
    by_contra hmem
    rw [← lookupKey_eq_none_iff k l] at hmem
    rw [hl] at hmem
    exact Option.noConfusion hmem

theorem setKey_of_not_mem {α β : Type} [DecidableEq α] {k : α} (v : β) {l : List (α × β)}
    (h : k ∉ l.map Prod.fst) : setKey k v l = l ++ [(k, v)] := by
  induction l with
  | nil => simp [setKey]
  | cons p rest ih =>
    obtain ⟨k', v'⟩ := p
    simp only [List.map_cons, List.mem_cons, not_or] at h
    simp [setKey, Ne.symm h.1, ih h.2]

/-! ### Lemmas about `runLen` -/

theorem runLen_congr (l₁ l₂ : List Nat) :
    ∀ x, (∀ e, e ≤ x → (e ∈ l₁ ↔ e ∈ l₂)) → runLen l₁ x = runLen l₂ x := by
  intro x
  induction x with
  | zero =>
    intro h
    simp only [runLen, h 0 (le_refl 0)]
  | succ d ih =>
    intro h
    simp only [runLen, h (d + 1) (le_refl (d + 1))]
    rw [ih (fun e he => h e (Nat.le_succ_of_le he))]

theorem runLen_of_not_mem {l : List Nat} {x : Nat} (h : x ∉ l) : runLen l x = 0 := by
  cases x <;> simp [runLen, h]

/-! ### C1: same-day duplicates are rejected without any state change -/

/-- C1: for every composite key and date, if a credited event already
exists for that key on that date (a PostLog entry for `today`), a
further `recordEvent` call on the same date returns `accepted = false`,
issues no persistence write, and leaves the state — PostLog,
`total_posts`, `current_streak`, `best_streak`, `last_posted` and every
other field — unchanged; only the first call of a day has any effect. -/
theorem recordEvent_duplicate_noop (today : Nat)
    (ts gi ci cn chi gn chn : String) (data : Data)
    (c : CreatorRecord) (plog : List (Nat × PostEntry)) (e : PostEntry)
    (hc : lookupKey (gi ++ "_" ++ ci) data.creators = some c)
    (hp : lookupKey (gi ++ "_" ++ ci) data.posts = some plog)
    (he : lookupKey today plog = some e) :
    recordEvent today ts gi ci cn chi gn chn data =
      { accepted := false, saved := none, memData := data } := by
  unfold recordEvent ensureEntries
  simp [hc, hp, he]

/-- Witness for C1 at a concrete duplicate: day 7 is already credited
for key `"g_c"` in `dDup`. -/
theorem recordEvent_duplicate_noop_witness :
    recordEvent 7 "ts2" "g" "c" "C" "ch" "G" "chan" dDup =
      { accepted := false, saved := none, memData := dDup } :=
  recordEvent_duplicate_noop 7 "ts2" "g" "c" "C" "ch" "G" "chan" dDup cW [(7, eW)] eW
    (by decide) (by decide) (by decide)

/-! ### C10: bot messages and DMs are ignored entirely -/

/-- C10: for every inbound message authored by a bot account, and for
every message arriving outside a guild (a DM), `on_message` returns
before loading any state: no save is issued, the credit path is never
reached, and the message is not passed to command processing; the
result is a constant independent of the stored snapshot. -/
theorem onMessage_ignores_bots_and_dms (today : Nat) (ts : String)
    (msg : Message) (stored : Data)
    (h : msg.authorBot = true ∨ msg.guild = none) :
    onMessage today ts msg stored =
      { saved := none, accepted := none, processedCommands := false } := by
  rcases h with h | h
  · simp [onMessage, h]
  · rcases hb : msg.authorBot
    · simp [onMessage, h, hb]
    · simp [onMessage, hb]

/-- Witness for C10: a bot-authored message in the tracked channel is
ignored. -/
theorem onMessage_ignores_bots_and_dms_witness :
    onMessage 7 "ts" { msgPosted with authorBot := true } dTracked =
      { saved := none, accepted := none, processedCommands := false } :=
  onMessage_ignores_bots_and_dms 7 "ts" { msgPosted with authorBot := true } dTracked
    (Or.inl rfl)

/-! ### C9: window counts -/

/-- C9: for every composite key and every `N`, `get_posts_in_period`
returns exactly the number of distinct PostLog dates in the trailing
N-day window — the dates `d` with `t - N < d ≤ t` — and issues no
persistence write.  `m` is the minutes past midnight of the tick
(`0 < m`: not exactly midnight, the almost-sure case; at `m = 0` the
boundary date `t - N` would also be counted). -/
theorem get_posts_in_period_window (data : Data) (key : String) (N t m : Nat)
    (plog : List (Nat × PostEntry))
    (hp : lookupKey key data.posts = some plog)
    (hnd : (plog.map Prod.fst).Nodup)
    (hm0 : 0 < m) (hm1 : m < 1440)
    (hle : ∀ p ∈ plog, p.1 ≤ t) :
    get_posts_in_period data key N t m =
      ((plog.map Prod.fst).dedup.filter
        (fun d : Nat =>
          decide ((t : Int) - (N : Int) < (d : Int) ∧ (d : Int) ≤ (t : Int)))).length ∧
    (windowCount data key N t m).2 = none := by
  refine ⟨?_, rfl⟩
  simp only [get_posts_in_period, hp]
  rw [List.dedup_eq_self.mpr hnd, List.filter_map, List.length_map]
  apply congrArg List.length
  apply List.filter_congr
  intro p hpm
  have hpt := hle p hpm
  simp only [Function.comp_apply, decide_eq_decide]
  omega

/-- Witness for C9: in `dDup` the key `"g_c"` has the single credited
date 7; at `t = 9`, `N = 7`, ten minutes past midnight, the window
`(2, 9]` counts it once. -/
theorem get_posts_in_period_window_witness :
    get_posts_in_period dDup "g_c" 7 9 10 =
      (([(7, eW)].map Prod.fst).dedup.filter
        (fun d : Nat =>
          decide ((9 : Int) - (7 : Int) < (d : Int) ∧ (d : Int) ≤ (9 : Int)))).length ∧
    (windowCount dDup "g_c" 7 9 10).2 = none :=
  get_posts_in_period_window dDup "g_c" 7 9 10 [(7, eW)]
    (by decide) (by decide) (by decide) (by decide) (by decide)

/-! ### C4: persistence errors -/

/-- C4 counterexample: a failed load is absorbed, not propagated —
`load_data` returns the fresh empty snapshot, and a mutating operation
(here the `!setup` command) then proceeds on that fresh state and
issues a save, overwriting the stored snapshot with state derived from
the empty one. -/
theorem load_error_absorbed_counterexample :
    load_data (Except.error IOErr.ioFailure) = freshData ∧
    setupChannel 7 "g" "G" "ch" "c" "C" "a" (load_data (Except.error IOErr.ioFailure)) =
      some { tracked_channels := [("ch",
               { creator_id := "c", creator_name := "C", guild_id := "g", guild_name := "G",
                 setup_by := "a", setup_date := 7 })],
             creators := [("g_c", initCreator 7 "C" "g" "G" "c" "ch")],
             posts := [] } :=
  ⟨rfl, by decide⟩

/-- C4 amended: a save error propagates to the caller uncaught, but a
load error does NOT propagate: `load_data` absorbs any error into the
fresh empty snapshot, the handler then runs against that fresh state,
and when it accepts an event it saves, overwriting the stored
snapshot. -/
theorem persistence_error_behavior (e e' : IOErr) (today : Nat) (ts : String)
    (msg : Message) (d : Data)
    (hs : ((onMessage today ts msg d).saved).isSome = true) :
    load_data (Except.error e) = freshData ∧
    onMessageFromStore (Except.error e) (Except.ok ()) today ts msg =
      Except.ok (onMessage today ts msg freshData) ∧
    onMessageFromStore (Except.ok d) (Except.error e') today ts msg = Except.error e' := by
  refine ⟨rfl, ?_, ?_⟩
  · unfold onMessageFromStore load_data
    cases h : (onMessage today ts msg freshData).saved <;> simp [h]
  · obtain ⟨x, hx⟩ := Option.isSome_iff_exists.mp hs
    unfold onMessageFromStore load_data
    simp [hx]

/-- Witness for C4's amended theorem: `msgPosted` against `dTracked`
is an accepted event, so a save is issued. -/
theorem persistence_error_behavior_witness :
    load_data (Except.error IOErr.ioFailure) = freshData ∧
    onMessageFromStore (Except.error IOErr.ioFailure) (Except.ok ()) 7 "ts" msgPosted =
      Except.ok (onMessage 7 "ts" msgPosted freshData) ∧
    onMessageFromStore (Except.ok dTracked) (Except.error IOErr.ioFailure) 7 "ts" msgPosted =
      Except.error IOErr.ioFailure :=
  persistence_error_behavior IOErr.ioFailure IOErr.ioFailure 7 "ts" msgPosted dTracked
    (by decide)

/-! ### C6: event timestamps vs processing time -/

/-- C6 counterexample: `msgPosted`'s own timestamp lies on day 5, the
handler runs on day 7, and the credited PostLog date is 7 — the
arrival/processing date, not the event timestamp's date. -/
theorem out_of_order_date_counterexample :
    msgPosted.createdAt = 5 ∧
    (onMessage 7 "ts" msgPosted dTracked).saved.map
      (fun d => ((lookupKey "g_c" d.posts).getD []).map Prod.fst) = some [7] ∧
    (onMessage 7 "ts" msgPosted dTracked).saved.map
      (fun d => decide (5 ∈ ((lookupKey "g_c" d.posts).getD []).map Prod.fst)) =
      some false :=
  ⟨rfl, by decide, by decide⟩

/-- Helper: whenever `recordEvent` issues a save, the saved snapshot
has a PostLog entry for the composite key dated `today`. -/
theorem recordEvent_saved_has_today (today : Nat) (ts gi ci cn chi gn chn : String)
    (data : Data) :
    (recordEvent today ts gi ci cn chi gn chn data).saved = none ∨
    ∃ d', (recordEvent today ts gi ci cn chi gn chn data).saved = some d' ∧
      ∃ plog, lookupKey (gi ++ "_" ++ ci) d'.posts = some plog ∧
        (lookupKey today plog).isSome = true := by
  simp only [recordEvent]
  split
  · right
    refine ⟨_, rfl, _, lookupKey_setKey_self _ _ _, ?_⟩
    rw [lookupKey_setKey_self]
    rfl
  · left
    rfl

/-- C6 amended: the calendar date used for deduplication, PostLog
insertion, `last_posted` and the streak is the processing-time date
(`datetime.now()` while handling); the event's own timestamp is never
read — the handler's result is invariant under it — and every save
writes a PostLog entry dated `today`. -/
theorem credit_uses_processing_date (today : Nat) (ts : String) (msg : Message) (x : Nat)
    (stored : Data) (d' : Data)
    (h : (onMessage today ts msg stored).saved = some d') :
    onMessage today ts { msg with createdAt := x } stored = onMessage today ts msg stored ∧
    ∃ k plog, lookupKey k d'.posts = some plog ∧ (lookupKey today plog).isSome = true := by
  refine ⟨rfl, ?_⟩
  unfold onMessage at h
  by_cases hb : msg.authorBot = true
  · simp [hb] at h
  · simp only [hb, if_false, Bool.false_eq_true] at h
    rcases hg : msg.guild with _ | ⟨gi, gn⟩
    · rw [hg] at h
      exact absurd h (by simp)
    · rw [hg] at h
      rcases hch : lookupKey msg.channelId stored.tracked_channels with _ | ch
      · rw [hch] at h
        exact absurd h (by simp)
      · rw [hch] at h
        by_cases hm : containsMarker msg.content = true
        · simp only [hm, if_true] at h
          rcases recordEvent_saved_has_today today ts gi ch.creator_id ch.creator_name
              msg.channelId gn msg.channelName stored with hn | ⟨d'', hm2, plog, hpl, hps⟩
          · rw [hn] at h
            exact absurd h (by simp)
          · rw [hm2] at h
            injection h with h
            subst h
            exact ⟨gi ++ "_" ++ ch.creator_id, plog, hpl, hps⟩
        · simp only [hm, if_false, Bool.false_eq_true] at h
          exact absurd h (by simp)

/-- Witness for C6's amended theorem at the concrete accepted event. -/
theorem credit_uses_processing_date_witness :
    onMessage 7 "ts" { msgPosted with createdAt := 99 } dTracked =
      onMessage 7 "ts" msgPosted dTracked ∧
    ∃ k plog,
      lookupKey k ((onMessage 7 "ts" msgPosted dTracked).saved.getD freshData).posts =
        some plog ∧
      (lookupKey 7 plog).isSome = true :=
  credit_uses_processing_date 7 "ts" msgPosted 99 dTracked
    ((onMessage 7 "ts" msgPosted dTracked).saved.getD freshData) (by decide)

/-! ### Reminder-scheduler helper lemmas -/

/-- On a record whose stored dates parse, `evalRecord` cannot raise:
it returns the pure decision. -/
theorem evalRecord_ne_error_of_wf (today : Nat) (r : CreatorRecord) (hwf : wellFormedDates r)
    (e : ParseErr) : evalRecord today r ≠ Except.error e := by
  intro h
  unfold evalRecord at h
  rcases hlp : r.last_posted with _ | dp | _ <;> rw [hlp] at h
  · exact Except.noConfusion h
  · simp only [] at h
    by_cases hge : (today : Int) - (dp : Int) ≥ REMINDER_DAYS
    · rw [if_pos hge] at h
      rcases hlr : r.last_reminded with _ | dr | _ <;> rw [hlr] at h
      · exact Except.noConfusion h
      · simp only [] at h
        by_cases hlt : (today : Int) - (dr : Int) < REMINDER_DAYS
        · rw [if_pos hlt] at h
          exact Except.noConfusion h
        · rw [if_neg hlt] at h
          exact Except.noConfusion h
      · exact hwf.2 hlr
    · rw [if_neg hge] at h
      exact Except.noConfusion h
  · exact hwf.1 hlp

theorem evalRecord_ok_of_wf (today : Nat) (r : CreatorRecord) (hwf : wellFormedDates r) :
    evalRecord today r = Except.ok (decisionDSP today r) := by
  rcases h : evalRecord today r with e | o
  · exact absurd h (evalRecord_ne_error_of_wf today r hwf e)
  · unfold decisionDSP
    rw [h]
    cases o <;> rfl

/-- Under well-formed stored dates, a reminder tick never aborts, the
intents are exactly the due records in order, and each record's
`last_reminded` is refreshed exactly when it was due and delivery
succeeded. -/
theorem checkReminders_of_wf (today : Nat) (ok : String → Bool)
    (recs : List (String × CreatorRecord)) (hwf : ∀ p ∈ recs, wellFormedDates p.2) :
    checkReminders today ok recs =
      { intents := recs.filterMap (fun p =>
          (decisionDSP today p.2).map (fun dsp => { key := p.1, daysSincePost := dsp })),
        creators := recs.map (fun p =>
          (p.1, if (decisionDSP today p.2).isSome && ok p.1 then
            { p.2 with last_reminded := StoredDate.date today } else p.2)),
        aborted := false } := by
  induction recs with
  | nil => rfl
  | cons p rest ih =>
    obtain ⟨k, r⟩ := p
    have hwf1 : wellFormedDates r := hwf (k, r) (List.mem_cons_self _ _)
    have ihh := ih (fun q hq => hwf q (List.mem_cons_of_mem _ hq))
    simp only [checkReminders, evalRecord_ok_of_wf today r hwf1, ihh]
    rcases hd : decisionDSP today r with _ | dsp
    · simp [List.filterMap_cons, hd]
    · simp [List.filterMap_cons, hd]

/-- Intents of a tick contain no entry for a key that is not in the
creators map. -/
theorem countKey_intents_zero_of_not_mem (today : Nat) (k : String)
    (recs : List (String × CreatorRecord)) (hk : k ∉ recs.map Prod.fst) :
    countKey k (recs.filterMap (fun p =>
      (decisionDSP today p.2).map (fun dsp => { key := p.1, daysSincePost := dsp }))) = 0 := by
  induction recs with
  | nil => rfl
  | cons p rest ih =>
    obtain ⟨k', r'⟩ := p
    simp only [List.map_cons, List.mem_cons, not_or] at hk
    rw [List.filterMap_cons]
    rcases hd : decisionDSP today r' with _ | dsp
    · exact ih hk.2
    · simp only [Option.map_some']
      unfold countKey
      rw [List.countP_cons]
      simp only [beq_iff_eq, decide_eq_true_eq]
      have : ¬(k' = k) := Ne.symm hk.1
      simp only [this, if_false]
      exact ih hk.2

/-- With unique keys, the number of intents addressed to a present
record's key is 1 when it is due and 0 otherwise. -/
theorem countKey_intents_of_mem (today : Nat) (k : String) (r : CreatorRecord)
    (recs : List (String × CreatorRecord)) (hnd : (recs.map Prod.fst).Nodup)
    (hmem : (k, r) ∈ recs) :
    countKey k (recs.filterMap (fun p =>
      (decisionDSP today p.2).map (fun dsp => { key := p.1, daysSincePost := dsp }))) =
      if (decisionDSP today r).isSome then 1 else 0 := by
  induction recs with
  | nil => cases hmem
  | cons p rest ih =>
    obtain ⟨k', r'⟩ := p
    simp only [List.map_cons, List.nodup_cons] at hnd
    rcases List.mem_cons.mp hmem with heq | hrest
    · have hk : k = k' := congrArg Prod.fst heq
      have hr : r = r' := congrArg Prod.snd heq
      subst hk
      subst hr
      rw [List.filterMap_cons]
      rcases hd : decisionDSP today r with _ | dsp
      · simp only [hd, Option.map_none', Option.isSome_none, Bool.false_eq_true, if_false]
        exact countKey_intents_zero_of_not_mem today k rest hnd.1
      · have h0 := countKey_intents_zero_of_not_mem today k rest hnd.1
        simp only [hd, Option.map_some', Option.isSome_some, if_true]
        unfold countKey at h0 ⊢
        rw [List.countP_cons, h0]
        simp
    · have hkne : k ≠ k' := by
        intro hkk
        subst hkk
        exact hnd.1 (List.mem_map.mpr ⟨(k, r), hrest, rfl⟩)
      have hih := ih hnd.2 hrest
      rw [List.filterMap_cons]
      rcases hd : decisionDSP today r' with _ | dsp
      · exact hih
      · simp only [hd, Option.map_some']
        unfold countKey at hih ⊢
        rw [List.countP_cons]
        have hpred : (({ key := k', daysSincePost := dsp } : Intent).key == k) = false :=
          beq_eq_false_iff_ne.mpr (Ne.symm hkne)
        rw [hpred]
        simpa using hih

/-- Lookup commutes with a key-preserving value map. -/
theorem lookupKey_map_keyed {β γ : Type} (g : String → β → γ) (k : String)
    (l : List (String × β)) :
    lookupKey k (l.map (fun p => (p.1, g p.1 p.2))) = (lookupKey k l).map (g k) := by
  induction l with
  | nil => rfl
  | cons p rest ih =>
    obtain ⟨k', v'⟩ := p
    by_cases h : k' = k
    · subst h
      simp [lookupKey]
    · simp [lookupKey, h, ih]

/-- With unique keys, membership determines the lookup result. -/
theorem lookupKey_of_mem_nodup {β : Type} {k : String} {v : β} {l : List (String × β)}
    (hnd : (l.map Prod.fst).Nodup) (hmem : (k, v) ∈ l) : lookupKey k l = some v := by
  induction l with
  | nil => cases hmem
  | cons p rest ih =>
    obtain ⟨k', v'⟩ := p
    simp only [List.map_cons, List.nodup_cons] at hnd
    rcases List.mem_cons.mp hmem with heq | hrest
    · have hk : k = k' := congrArg Prod.fst heq
      have hv : v = v' := congrArg Prod.snd heq
      subst hk
      subst hv
      simp [lookupKey]
    · have hkne : k' ≠ k := by
        intro hkk
        subst hkk
        exact hnd.1 (List.mem_map.mpr ⟨(k', v), hrest, rfl⟩)
      simp [lookupKey, hkne, ih hnd.2 hrest]

/-! ### C5: `last_reminded` vs delivery outcome -/

/-- C5 counterexample: `rDue` (last posted day 10, never reminded) is
due at day 13; with delivery failing, the reminder intent is emitted
but the stored record is NOT stamped — `last_reminded` stays unset
instead of being set to today, so the condition will fire again at the
next tick. -/
theorem reminder_failed_delivery_counterexample :
    (checkReminders 13 (fun _ => false) [("k", rDue)]).intents =
      [{ key := "k", daysSincePost := 3 }] ∧
    (checkReminders 13 (fun _ => false) [("k", rDue)]).creators = [("k", rDue)] ∧
    rDue.last_reminded = StoredDate.unset ∧
    rDue.last_reminded ≠ StoredDate.date 13 := by
  refine ⟨by decide, by decide, by decide, by decide⟩

/-- C5 amended: when the scheduler decides a reminder is due it emits
the intent, but it sets `last_reminded := today` only when delivery
succeeds; on delivery failure the exception is swallowed and the
record is left unchanged, so the reminder condition fires again at the
next tick. -/
theorem reminder_marks_only_on_delivery (today : Nat) (ok : String → Bool)
    (recs : List (String × CreatorRecord)) (k : String) (r : CreatorRecord) (dsp : Int)
    (hwf : ∀ p ∈ recs, wellFormedDates p.2)
    (hnd : (recs.map Prod.fst).Nodup)
    (hmem : (k, r) ∈ recs)
    (hdue : decisionDSP today r = some dsp) :
    { key := k, daysSincePost := dsp } ∈ (checkReminders today ok recs).intents ∧
    lookupKey k (checkReminders today ok recs).creators =
      some (if ok k then { r with last_reminded := StoredDate.date today } else r) := by
  rw [checkReminders_of_wf today ok recs hwf]
  constructor
  · exact List.mem_filterMap.mpr ⟨(k, r), hmem, by rw [hdue]; rfl⟩
  · rw [lookupKey_map_keyed (fun k' r' =>
      if (decisionDSP today r').isSome && ok k' then
        { r' with last_reminded := StoredDate.date today } else r')]
    rw [lookupKey_of_mem_nodup hnd hmem]
    rw [Option.map_some']
    rw [hdue]
    cases hok : ok k <;> simp

/-- Witness for C5's amended theorem: delivery failure leaves `rDue`
unchanged while the intent is still emitted. -/
theorem reminder_marks_only_on_delivery_witness :
    ({ key := "k", daysSincePost := 3 } : Intent) ∈
      (checkReminders 13 (fun _ => false) [("k", rDue)]).intents ∧
    lookupKey "k" (checkReminders 13 (fun _ => false) [("k", rDue)]).creators =
      some (if (fun _ : String => false) "k" then
        { rDue with last_reminded := StoredDate.date 13 } else rDue) :=
  reminder_marks_only_on_delivery 13 (fun _ => false) [("k", rDue)] "k" rDue 3
    (by intro p hp; cases hp with
      | head => exact ⟨by decide, by decide⟩
      | tail _ h => cases h)
    (by decide) (List.mem_cons_self _ _) (by decide)

/-! ### C7: reminder decision per tick -/

/-- C7: at a scheduler tick, a creator with no `last_posted` gets no
reminder intent; a creator 3 days past posting but reminded 1 day ago
(threshold 2) gets none; and a creator at/past the threshold whose
`last_reminded` is unset or 3 or more days old gets exactly one intent
in that tick. -/
theorem reminder_decision_per_tick (today : Nat) (ok : String → Bool)
    (recs : List (String × CreatorRecord)) (k : String) (r : CreatorRecord)
    (hwf : ∀ p ∈ recs, wellFormedDates p.2)
    (hnd : (recs.map Prod.fst).Nodup)
    (hmem : (k, r) ∈ recs) :
    (r.last_posted = StoredDate.unset →
      countKey k (checkReminders today ok recs).intents = 0) ∧
    (∀ dp dr, r.last_posted = StoredDate.date dp → (today : Int) - (dp : Int) = 3 →
      r.last_reminded = StoredDate.date dr → (today : Int) - (dr : Int) = 1 →
      countKey k (checkReminders today ok recs).intents = 0) ∧
    (∀ dp, r.last_posted = StoredDate.date dp → (today : Int) - (dp : Int) ≥ REMINDER_DAYS →
      (r.last_reminded = StoredDate.unset ∨
        ∃ dr, r.last_reminded = StoredDate.date dr ∧ (today : Int) - (dr : Int) ≥ 3) →
      countKey k (checkReminders today ok recs).intents = 1) := by
  rw [checkReminders_of_wf today ok recs hwf]
  have hcount := countKey_intents_of_mem today k r recs hnd hmem
  refine ⟨?_, ?_, ?_⟩
  · intro hlp
    have hd : decisionDSP today r = none := by
      simp only [decisionDSP, evalRecord, hlp]
    rw [hcount, hd]
    simp
  · intro dp dr hlp hdp hlr hdr
    have hd : decisionDSP today r = none := by
      simp only [decisionDSP, evalRecord, hlp, hlr, REMINDER_DAYS]
      rw [hdp, hdr]
      norm_num
    rw [hcount, hd]
    simp
  · intro dp hlp hdp hlr
    have hd : (decisionDSP today r).isSome = true := by
      rcases hlr with hun | ⟨dr, hdate, hdr3⟩
      · simp only [decisionDSP, evalRecord, hlp, hun, REMINDER_DAYS]
        rw [if_pos (by unfold REMINDER_DAYS at hdp; omega)]
        rfl
      · simp only [decisionDSP, evalRecord, hlp, hdate, REMINDER_DAYS]
        rw [if_pos (by unfold REMINDER_DAYS at hdp; omega),
          if_neg (by omega : ¬(today : Int) - (dr : Int) < 2)]
        rfl
    rw [hcount, hd]
    simp

/-- Witness for C7: `rDue` (posted day 10, never reminded) receives
exactly one intent at the day-13 tick. -/
theorem reminder_decision_per_tick_witness :
    countKey "k" (checkReminders 13 (fun _ => true) [("k", rDue)]).intents = 1 :=
  (reminder_decision_per_tick 13 (fun _ => true) [("k", rDue)] "k" rDue
    (by
      intro p hp
      cases hp with
      | head => exact ⟨by decide, by decide⟩
      | tail _ h => cases h)
    (by decide) (List.mem_cons_self _ _)).2.2 10 rfl (by decide) (Or.inl (by decide))

/-! ### C8: a malformed stored date aborts the reminder pass -/

/-- C8 counterexample: with a malformed `last_posted` on the first
record, the whole day-13 tick aborts with no intents — the due
creator `"k"` is not evaluated — although the same state without the
malformed record emits `"k"`'s intent. -/
theorem malformed_date_aborts_counterexample :
    checkReminders 13 (fun _ => true) [("b", rBadDate), ("k", rDue)] =
      { intents := [], creators := [("b", rBadDate), ("k", rDue)], aborted := true } ∧
    (checkReminders 13 (fun _ => true) [("k", rDue)]).intents =
      [{ key := "k", daysSincePost := 3 }] :=
  ⟨by decide, by decide⟩

/-- C8 amended: a stored date that fails to parse raises out of the
evaluation loop: creators before it in iteration order are evaluated
normally, while the malformed record and every later creator are
skipped for that pass. -/
theorem checkReminders_aborts_at_malformed (today : Nat) (ok : String → Bool)
    (pre : List (String × CreatorRecord)) (k : String) (r : CreatorRecord)
    (rest : List (String × CreatorRecord))
    (hwf : ∀ p ∈ pre, wellFormedDates p.2)
    (hbad : r.last_posted = StoredDate.malformed) :
    checkReminders today ok (pre ++ (k, r) :: rest) =
      { intents := (checkReminders today ok pre).intents,
        creators := (checkReminders today ok pre).creators ++ (k, r) :: rest,
        aborted := true } := by
  induction pre with
  | nil =>
    have he : evalRecord today r = Except.error ParseErr.badDate := by
      unfold evalRecord
      rw [hbad]
    simp only [List.nil_append, checkReminders, he]
  | cons p pre' ih =>
    obtain ⟨k', r'⟩ := p
    have hwf1 : wellFormedDates r' := hwf (k', r') (List.mem_cons_self _ _)
    have ihh := ih (fun q hq => hwf q (List.mem_cons_of_mem _ hq))
    simp only [List.cons_append, checkReminders, evalRecord_ok_of_wf today r' hwf1, ihh]
    rcases hd : decisionDSP today r' with _ | dsp <;> simp [hd, ihh]

/-- Witness for C8's amended theorem: one well-formed record before
the malformed one, one due record after it. -/
theorem checkReminders_aborts_at_malformed_witness :
    checkReminders 13 (fun _ => true) ([("a", rDue)] ++ ("b", rBadDate) :: [("k", rDue)]) =
      { intents := (checkReminders 13 (fun _ => true) [("a", rDue)]).intents,
        creators := (checkReminders 13 (fun _ => true) [("a", rDue)]).creators ++
          ("b", rBadDate) :: [("k", rDue)],
        aborted := true } :=
  checkReminders_aborts_at_malformed 13 (fun _ => true) [("a", rDue)] "b" rBadDate
    [("k", rDue)]
    (by
      intro p hp
      cases hp with
      | head => exact ⟨by decide, by decide⟩
      | tail _ h => cases h)
    (by decide)

/-! ### Ledger update helper lemmas -/

theorem updatedCreator_props (today : Nat) (cn : String) (p : List (Nat × PostEntry))
    (c : CreatorRecord) :
    (updatedCreator today cn p c).current_streak =
      (if (lookupKey (today - 1) p).isSome then c.current_streak + 1 else 1) ∧
    (updatedCreator today cn p c).last_posted = StoredDate.date today ∧
    (updatedCreator today cn p c).current_streak ≤ (updatedCreator today cn p c).best_streak ∧
    c.best_streak ≤ (updatedCreator today cn p c).best_streak := by
  unfold updatedCreator
  by_cases hB : (lookupKey (today - 1) p).isSome = true
  · simp only [hB, if_true]
    by_cases h2 : c.current_streak + 1 > c.best_streak <;> simp [h2] <;> omega
  · simp only [hB, if_false, Bool.false_eq_true]
    by_cases h2 : 1 > c.best_streak <;> simp [h2] <;> omega

theorem ensureEntries_creators (today : Nat) (cn gi gn ci chi uk : String) (data : Data) :
    (ensureEntries today cn gi gn ci chi uk data).creators =
      if (lookupKey uk data.creators).isNone then
        setKey uk (initCreator today cn gi gn ci chi) data.creators
      else data.creators := by
  simp only [ensureEntries]
  split <;> split <;> rfl

theorem ensureEntries_posts (today : Nat) (cn gi gn ci chi uk : String) (data : Data) :
    (ensureEntries today cn gi gn ci chi uk data).posts =
      if (lookupKey uk data.posts).isNone then setKey uk [] data.posts
      else data.posts := by
  simp only [ensureEntries]
  split <;> split <;> rfl

theorem ensureEntries_tracked (today : Nat) (cn gi gn ci chi uk : String) (data : Data) :
    (ensureEntries today cn gi gn ci chi uk data).tracked_channels =
      data.tracked_channels := by
  simp only [ensureEntries]
  split <;> split <;> rfl

theorem lookupKey_ensureEntries_creators (today : Nat) (cn gi gn ci chi uk : String)
    (data : Data) (k : String) :
    lookupKey k (ensureEntries today cn gi gn ci chi uk data).creators =
      if k = uk then
        some ((lookupKey uk data.creators).getD (initCreator today cn gi gn ci chi))
      else lookupKey k data.creators := by
  rw [ensureEntries_creators]
  by_cases hk : k = uk
  · subst hk
    simp only [if_pos rfl]
    split
    · rename_i h
      rw [lookupKey_setKey_self, Option.isNone_iff_eq_none.mp h]
      rfl
    · rename_i h
      rcases hl : lookupKey k data.creators with _ | c
      · rw [hl] at h
        exact absurd rfl h
      · rfl
  · rw [if_neg hk]
    split
    · exact lookupKey_setKey_ne _ _ hk
    · rfl

/-- Shape of the snapshot saved by an accepted `recordEvent`. -/
theorem recordEvent_saved_shape (today : Nat) (ts gi ci cn chi gn chn : String)
    (data : Data) :
    (recordEvent today ts gi ci cn chi gn chn data).saved = none ∨
    ∃ plogN,
      plogN = setKey today { timestamp := ts, channel := chn, guild := gn }
        ((lookupKey (gi ++ "_" ++ ci)
          (ensureEntries today cn gi gn ci chi (gi ++ "_" ++ ci) data).posts).getD []) ∧
      (recordEvent today ts gi ci cn chi gn chn data).saved = some
        { tracked_channels :=
            (ensureEntries today cn gi gn ci chi (gi ++ "_" ++ ci) data).tracked_channels,
          creators := setKey (gi ++ "_" ++ ci)
            (updatedCreator today cn plogN
              ((lookupKey (gi ++ "_" ++ ci)
                (ensureEntries today cn gi gn ci chi (gi ++ "_" ++ ci) data).creators).getD
                default))
            (ensureEntries today cn gi gn ci chi (gi ++ "_" ++ ci) data).creators,
          posts := setKey (gi ++ "_" ++ ci) plogN
            (ensureEntries today cn gi gn ci chi (gi ++ "_" ++ ci) data).posts } := by
  simp only [recordEvent]
  split
  · right
    exact ⟨_, rfl, rfl⟩
  · left
    rfl

/-- A reminder tick never changes the streak fields of any record. -/
theorem checkReminders_preserves_streaks (today : Nat) (ok : String → Bool)
    (recs : List (String × CreatorRecord)) (k : String) :
    Option.map (fun c => (c.current_streak, c.best_streak))
        (lookupKey k (checkReminders today ok recs).creators) =
      Option.map (fun c => (c.current_streak, c.best_streak)) (lookupKey k recs) := by
  induction recs with
  | nil => rfl
  | cons p rest ih =>
    obtain ⟨k', r⟩ := p
    rcases he : evalRecord today r with e | o
    · simp only [checkReminders, he]
    · rcases o with _ | dsp
      · simp only [checkReminders, he]
        by_cases hk : k' = k
        · subst hk
          simp [lookupKey]
        · simp [lookupKey, hk, ih]
      · simp only [checkReminders, he]
        by_cases hk : k' = k
        · subst hk
          cases hok : ok k' <;> simp [lookupKey, hok]
        · cases hok : ok k' <;> simp [lookupKey, hk, hok, ih]

/-- Shape of a saved `!setup` transition: the creators map is either
untouched or extended at a fresh key with the zeroed record. -/
theorem setupChannel_shape (today : Nat) (gi gn chi ci cn ai : String) (data : Data) :
    setupChannel today gi gn chi ci cn ai data = none ∨
    ∃ d2, setupChannel today gi gn chi ci cn ai data = some d2 ∧
      (d2.creators = data.creators ∨
        (lookupKey (gi ++ "_" ++ ci) data.creators = none ∧
          d2.creators = setKey (gi ++ "_" ++ ci) (initCreator today cn gi gn ci chi)
            data.creators)) := by
  simp only [setupChannel]
  split
  · left
    rfl
  · right
    split
    · rename_i h
      exact ⟨_, rfl, Or.inr ⟨Option.isNone_iff_eq_none.mp h, rfl⟩⟩
    · exact ⟨_, rfl, Or.inl rfl⟩

/-- `!unsetup` never touches the creators map. -/
theorem unsetupChannel_creators (chi : String) (data : Data) :
    ((unsetupChannel chi data).getD data).creators = data.creators := by
  simp only [unsetupChannel]
  split <;> rfl

/-- One operation preserves the streak invariant and never decreases
any creator's `best_streak` (creators are never removed). -/
theorem applyOp_step (d : Data) (op : Op) (hInv : streakInv d) :
    streakInv (applyOp d op) ∧
    ∀ k c, lookupKey k d.creators = some c →
      ∃ c', lookupKey k (applyOp d op).creators = some c' ∧
        c.best_streak ≤ c'.best_streak := by
  cases op with
  | record t ts gi ci cn chi gn chn =>
    simp only [applyOp]
    rcases recordEvent_saved_shape t ts gi ci cn chi gn chn d with hn | ⟨plogN, _, hs⟩
    · rw [hn]
      exact ⟨hInv, fun k c hc => ⟨c, hc, le_refl _⟩⟩
    · rw [hs]
      simp only [Option.getD_some]
      have hup := updatedCreator_props t cn plogN
        ((lookupKey (gi ++ "_" ++ ci)
          (ensureEntries t cn gi gn ci chi (gi ++ "_" ++ ci) d).creators).getD default)
      constructor
      · intro k c hc
        by_cases hk : k = gi ++ "_" ++ ci
        · subst hk
          rw [lookupKey_setKey_self] at hc
          injection hc with hc
          subst hc
          exact hup.2.2.1
        · rw [lookupKey_setKey_ne _ _ hk, lookupKey_ensureEntries_creators,
            if_neg hk] at hc
          exact hInv k c hc
      · intro k c hc
        by_cases hk : k = gi ++ "_" ++ ci
        · subst hk
          refine ⟨_, lookupKey_setKey_self _ _ _, ?_⟩
          have hbase :
              (lookupKey (gi ++ "_" ++ ci)
                (ensureEntries t cn gi gn ci chi (gi ++ "_" ++ ci) d).creators).getD default
                = c := by
            rw [lookupKey_ensureEntries_creators, if_pos rfl, hc]
            rfl
          rw [hbase]
          exact (updatedCreator_props t cn plogN c).2.2.2
        · refine ⟨c, ?_, le_refl _⟩
          rw [lookupKey_setKey_ne _ _ hk, lookupKey_ensureEntries_creators, if_neg hk]
          exact hc
  | tick t del =>
    simp only [applyOp]
    constructor
    · intro k c hc
      have hpair := checkReminders_preserves_streaks t (fun k => del.contains k) d.creators k
      rw [hc] at hpair
      rcases ho : lookupKey k d.creators with _ | c0
      · rw [ho] at hpair
        simp at hpair
      · rw [ho] at hpair
        simp only [Option.map_some'] at hpair
        injection hpair with hpair
        have := hInv k c0 ho
        have h1 : c.current_streak = c0.current_streak := congrArg Prod.fst hpair
        have h2 : c.best_streak = c0.best_streak := congrArg Prod.snd hpair
        omega
    · intro k c hc
      have hpair := checkReminders_preserves_streaks t (fun k => del.contains k) d.creators k
      rw [hc] at hpair
      rcases hn : lookupKey k (checkReminders t (fun k => del.contains k) d.creators).creators
        with _ | c'
      · rw [hn] at hpair
        simp at hpair
      · rw [hn] at hpair
        simp only [Option.map_some'] at hpair
        injection hpair with hpair
        have h2 : c'.best_streak = c.best_streak := congrArg Prod.snd hpair
        refine ⟨c', rfl, ?_⟩
        omega
  | setup t gi gn chi ci cn ai =>
    simp only [applyOp]
    rcases setupChannel_shape t gi gn chi ci cn ai d with hn | ⟨d2, hs, hcr⟩
    · rw [hn]
      exact ⟨hInv, fun k c hc => ⟨c, hc, le_refl _⟩⟩
    · rw [hs]
      simp only [Option.getD_some]
      rcases hcr with hsame | ⟨hfresh, hset⟩
      · constructor
        · intro k c hc
          rw [hsame] at hc
          exact hInv k c hc
        · intro k c hc
          refine ⟨c, ?_, le_refl _⟩
          rw [hsame]
          exact hc
      · constructor
        · intro k c hc
          rw [hset] at hc
          by_cases hk : k = gi ++ "_" ++ ci
          · subst hk
            rw [lookupKey_setKey_self] at hc
            injection hc with hc
            subst hc
            exact le_refl _
          · rw [lookupKey_setKey_ne _ _ hk] at hc
            exact hInv k c hc
        · intro k c hc
          by_cases hk : k = gi ++ "_" ++ ci
          · subst hk
            rw [hc] at hfresh
            exact Option.noConfusion hfresh
          · exact ⟨c, by rw [hset, lookupKey_setKey_ne _ _ hk]; exact hc, le_refl _⟩
  | unsetup chi =>
    simp only [applyOp]
    constructor
    · intro k c hc
      rw [unsetupChannel_creators] at hc
      exact hInv k c hc
    · intro k c hc
      refine ⟨c, ?_, le_refl _⟩
      rw [unsetupChannel_creators]
      exact hc

/-! ### C3: best streak is monotone and dominates the current streak -/

/-- C3: over any sequence of operations (credits, reminder ticks,
setup, unsetup), every creator's `best_streak` is non-decreasing and
the invariant `current_streak ≤ best_streak` holds in every reachable
state — the ledger re-establishes it on every update. -/
theorem best_streak_monotone_invariant (ops : List Op) (d : Data) (hInv : streakInv d) :
    streakInv (ops.foldl applyOp d) ∧
    ∀ k c, lookupKey k d.creators = some c →
      ∃ c', lookupKey k (ops.foldl applyOp d).creators = some c' ∧
        c.best_streak ≤ c'.best_streak := by
  induction ops generalizing d with
  | nil => exact ⟨hInv, fun k c hc => ⟨c, hc, le_refl _⟩⟩
  | cons op rest ih =>
    have hstep := applyOp_step d op hInv
    have hrest := ih (applyOp d op) hstep.1
    rw [List.foldl_cons]
    refine ⟨hrest.1, ?_⟩
    intro k c hc
    obtain ⟨c1, hc1, hle1⟩ := hstep.2 k c hc
    obtain ⟨c2, hc2, hle2⟩ := hrest.2 k c1 hc1
    exact ⟨c2, hc2, le_trans hle1 hle2⟩

/-- Witness for C3: one credit on day 8 applied to `dDup` (which
satisfies the invariant). -/
theorem best_streak_monotone_invariant_witness :
    streakInv ([Op.record 8 "ts" "g" "c" "C" "ch" "G" "chan"].foldl applyOp dDup) ∧
    ∀ k c, lookupKey k dDup.creators = some c →
      ∃ c', lookupKey k
          ([Op.record 8 "ts" "g" "c" "C" "ch" "G" "chan"].foldl applyOp dDup).creators =
          some c' ∧
        c.best_streak ≤ c'.best_streak :=
  best_streak_monotone_invariant [Op.record 8 "ts" "g" "c" "C" "ch" "G" "chan"] dDup
    (by
      intro k c hc
      simp only [dDup, lookupKey] at hc
      split at hc
      · injection hc with hc
        subst hc
        decide
      · exact Option.noConfusion hc)

/-! ### Streak-contiguity helper lemmas -/

theorem runLen_append_gt (ds : List Nat) (t : Nat) (ht : 1 ≤ t) (hgt : ∀ x ∈ ds, x < t) :
    runLen (ds ++ [t]) t = runLen ds (t - 1) + 1 := by
  obtain ⟨e, rfl⟩ : ∃ e, t = e + 1 := ⟨t - 1, by omega⟩
  show runLen (ds ++ [e + 1]) (e + 1) = runLen ds (e + 1 - 1) + 1
  rw [runLen, if_pos (by simp)]
  have he : e + 1 - 1 = e := by omega
  rw [he]
  congr 1
  apply runLen_congr
  intro x hx
  constructor
  · intro hmem
    rcases List.mem_append.mp hmem with h | h
    · exact h
    · simp only [List.mem_singleton] at h
      omega
  · intro hmem
    exact List.mem_append.mpr (Or.inl hmem)

/-- An accepted credit on an already-known key: the explicit saved
snapshot. -/
theorem recordEvent_accepts (today : Nat) (ts gi ci cn chi gn chn : String) (data : Data)
    (c : CreatorRecord) (plog : List (Nat × PostEntry))
    (hc : lookupKey (gi ++ "_" ++ ci) data.creators = some c)
    (hp : lookupKey (gi ++ "_" ++ ci) data.posts = some plog)
    (hnew : lookupKey today plog = none) :
    (recordEvent today ts gi ci cn chi gn chn data).saved = some
      { tracked_channels := data.tracked_channels,
        creators := setKey (gi ++ "_" ++ ci)
          (updatedCreator today cn
            (setKey today { timestamp := ts, channel := chn, guild := gn } plog) c)
          data.creators,
        posts := setKey (gi ++ "_" ++ ci)
          (setKey today { timestamp := ts, channel := chn, guild := gn } plog)
          data.posts } := by
  unfold recordEvent ensureEntries
  simp [hc, hp, hnew]

/-- The very first credit for a composite key: the explicit saved
snapshot, starting from the freshly initialized record and empty log. -/
theorem recordEvent_accepts_fresh (today : Nat) (ts gi ci cn chi gn chn : String)
    (data : Data)
    (hc : lookupKey (gi ++ "_" ++ ci) data.creators = none)
    (hp : lookupKey (gi ++ "_" ++ ci) data.posts = none) :
    (recordEvent today ts gi ci cn chi gn chn data).saved = some
      { tracked_channels := data.tracked_channels,
        creators := setKey (gi ++ "_" ++ ci)
          (updatedCreator today cn
            (setKey today { timestamp := ts, channel := chn, guild := gn } [])
            (initCreator today cn gi gn ci chi))
          (setKey (gi ++ "_" ++ ci) (initCreator today cn gi gn ci chi) data.creators),
        posts := setKey (gi ++ "_" ++ ci)
          (setKey today { timestamp := ts, channel := chn, guild := gn } [])
          (setKey (gi ++ "_" ++ ci) [] data.posts) } := by
  unfold recordEvent ensureEntries
  simp [hc, hp, lookupKey_setKey_self, lookupKey]

theorem foldl_const_last : ∀ (rest : List Nat) (a : Nat) (h : (a :: rest) ≠ []),
    rest.foldl (fun _ x => x) a = (a :: rest).getLast h := by
  intro rest
  induction rest with
  | nil =>
    intro a h
    rfl
  | cons t r ih =>
    intro a h
    rw [List.foldl_cons, ih t (by simp)]
    exact (List.getLast_cons (by simp)).symm

/-- Folding further credits at strictly increasing dates keeps the
stored streak equal to the length of the maximal consecutive run of
PostLog dates ending at `last_posted`. -/
theorem record_credit_fold (ts gi ci cn chi gn chn : String) :
    ∀ (rest : List Nat) (d : Data) (ds : List Nat) (last : Nat) (c : CreatorRecord)
      (plog : List (Nat × PostEntry)),
      List.Chain' (· < ·) (last :: rest) → 1 ≤ last →
      lookupKey (gi ++ "_" ++ ci) d.creators = some c →
      lookupKey (gi ++ "_" ++ ci) d.posts = some plog →
      plog.map Prod.fst = ds →
      c.current_streak = runLen ds last →
      c.last_posted = StoredDate.date last →
      (∀ x ∈ ds, x ≤ last) →
      ∃ c' plog',
        lookupKey (gi ++ "_" ++ ci)
          (rest.foldl (fun d t => applyOp d (Op.record t ts gi ci cn chi gn chn)) d).creators
          = some c' ∧
        lookupKey (gi ++ "_" ++ ci)
          (rest.foldl (fun d t => applyOp d (Op.record t ts gi ci cn chi gn chn)) d).posts
          = some plog' ∧
        plog'.map Prod.fst = ds ++ rest ∧
        c'.current_streak = runLen (ds ++ rest) (rest.foldl (fun _ x => x) last) ∧
        c'.last_posted = StoredDate.date (rest.foldl (fun _ x => x) last) ∧
        (∀ x ∈ ds ++ rest, x ≤ rest.foldl (fun _ x => x) last) := by
  intro rest
  induction rest with
  | nil =>
    intro d ds last c plog _ _ hc hp hkeys hcs hlpost hub
    refine ⟨c, plog, hc, hp, by simpa using hkeys, by simpa using hcs,
      by simpa using hlpost, by simpa using hub⟩
  | cons t rest' ih =>
    intro d ds last c plog hchain h1 hc hp hkeys hcs hlpost hub
    have hlt : last < t := (List.chain'_cons.mp hchain).1
    have hchain' : List.Chain' (· < ·) (t :: rest') := (List.chain'_cons.mp hchain).2
    have ht1 : 1 ≤ t := by omega
    have htnotin : t ∉ plog.map Prod.fst := by
      rw [hkeys]
      intro hmem
      exact absurd (hub t hmem) (by omega)
    have hnew : lookupKey t plog = none := (lookupKey_eq_none_iff t plog).mpr htnotin
    have happ := recordEvent_accepts t ts gi ci cn chi gn chn d c plog hc hp hnew
    rw [List.foldl_cons]
    have happly : applyOp d (Op.record t ts gi ci cn chi gn chn) =
        { tracked_channels := d.tracked_channels,
          creators := setKey (gi ++ "_" ++ ci)
            (updatedCreator t cn
              (setKey t { timestamp := ts, channel := chn, guild := gn } plog) c)
            d.creators,
          posts := setKey (gi ++ "_" ++ ci)
            (setKey t { timestamp := ts, channel := chn, guild := gn } plog)
            d.posts } := by
      simp only [applyOp, happ, Option.getD_some]
    have hca : lookupKey (gi ++ "_" ++ ci)
        (applyOp d (Op.record t ts gi ci cn chi gn chn)).creators =
        some (updatedCreator t cn
          (setKey t { timestamp := ts, channel := chn, guild := gn } plog) c) := by
      rw [happly]
      exact lookupKey_setKey_self _ _ _
    have hpa : lookupKey (gi ++ "_" ++ ci)
        (applyOp d (Op.record t ts gi ci cn chi gn chn)).posts =
        some (setKey t { timestamp := ts, channel := chn, guild := gn } plog) := by
      rw [happly]
      exact lookupKey_setKey_self _ _ _
    have hplogN : setKey t { timestamp := ts, channel := chn, guild := gn } plog =
        plog ++ [(t, { timestamp := ts, channel := chn, guild := gn })] :=
      setKey_of_not_mem _ htnotin
    have hkeysN : (setKey t { timestamp := ts, channel := chn, guild := gn } plog).map
        Prod.fst = ds ++ [t] := by
      rw [hplogN, List.map_append, hkeys]
      rfl
    have hprops := updatedCreator_props t cn
      (setKey t { timestamp := ts, channel := chn, guild := gn } plog) c
    have hcsN : (updatedCreator t cn
        (setKey t { timestamp := ts, channel := chn, guild := gn } plog) c).current_streak =
        runLen (ds ++ [t]) t := by
      rw [hprops.1]
      have hmemiff : ((lookupKey (t - 1)
          (setKey t { timestamp := ts, channel := chn, guild := gn } plog)).isSome = true) ↔
          (t - 1) ∈ ds := by
        rw [lookupKey_isSome_iff, hkeysN]
        simp only [List.mem_append, List.mem_singleton]
        constructor
        · rintro (h | h)
          · exact h
          · exact absurd h (by omega)
        · exact fun h => Or.inl h
      have hgt : ∀ x ∈ ds, x < t := fun x hx => by
        have := hub x hx
        omega
      rw [runLen_append_gt ds t ht1 hgt]
      by_cases hmem : (t - 1) ∈ ds
      · rw [if_pos (hmemiff.mpr hmem)]
        have hlast_eq : last = t - 1 := by
          have := hub (t - 1) hmem
          omega
        rw [hcs, hlast_eq]
      · rw [if_neg (fun hh => hmem (hmemiff.mp hh))]
        rw [runLen_of_not_mem hmem]
    have hubN : ∀ x ∈ ds ++ [t], x ≤ t := by
      intro x hx
      rcases List.mem_append.mp hx with h | h
      · have := hub x h
        omega
      · simp only [List.mem_singleton] at h
        omega
    have hres := ih (applyOp d (Op.record t ts gi ci cn chi gn chn)) (ds ++ [t]) t
      (updatedCreator t cn (setKey t { timestamp := ts, channel := chn, guild := gn } plog) c)
      (setKey t { timestamp := ts, channel := chn, guild := gn } plog)
      hchain' ht1 hca hpa hkeysN hcsN hprops.2.1 hubN
    obtain ⟨c', plog', h1', h2', h3', h4', h5', h6'⟩ := hres
    refine ⟨c', plog', h1', h2', ?_, ?_, ?_, ?_⟩
    · rw [h3']
      simp
    · rw [h4', List.foldl_cons]
      congr 1
      simp
    · rw [h5', List.foldl_cons]
    · intro x hx
      rw [List.foldl_cons]
      apply h6'
      simpa [List.append_assoc] using hx

/-! ### C2: streak contiguity -/

/-- C2: for every composite key and every sequence of credited events
at strictly increasing dates (the only sequences the monotone
processing clock can produce; same-day repeats are deduplicated),
starting from a state with no record for the key, the stored
`current_streak` after the last credit equals the length of the
maximal run of consecutive calendar dates in the key's PostLog ending
at `last_posted` — the credit rule increments on a previous-day entry
and resets to 1 after a gap of any length. -/
theorem streak_contiguity (ts gi ci cn chi gn chn : String) (days : List Nat)
    (hne : days ≠ []) (hchain : days.Chain' (· < ·)) (hpos : ∀ x ∈ days, 1 ≤ x)
    (d0 : Data)
    (hc0 : lookupKey (gi ++ "_" ++ ci) d0.creators = none)
    (hp0 : lookupKey (gi ++ "_" ++ ci) d0.posts = none) :
    ∃ c plog,
      lookupKey (gi ++ "_" ++ ci)
        (days.foldl (fun d t => applyOp d (Op.record t ts gi ci cn chi gn chn)) d0).creators
        = some c ∧
      lookupKey (gi ++ "_" ++ ci)
        (days.foldl (fun d t => applyOp d (Op.record t ts gi ci cn chi gn chn)) d0).posts
        = some plog ∧
      plog.map Prod.fst = days ∧
      c.last_posted = StoredDate.date (days.getLast hne) ∧
      c.current_streak = runLen days (days.getLast hne) := by
  rcases days with _ | ⟨d1, rest⟩
  · exact absurd rfl hne
  · have h1 : 1 ≤ d1 := hpos d1 (by simp)
    have happ := recordEvent_accepts_fresh d1 ts gi ci cn chi gn chn d0 hc0 hp0
    rw [List.foldl_cons]
    have happly : applyOp d0 (Op.record d1 ts gi ci cn chi gn chn) =
        { tracked_channels := d0.tracked_channels,
          creators := setKey (gi ++ "_" ++ ci)
            (updatedCreator d1 cn
              (setKey d1 { timestamp := ts, channel := chn, guild := gn } [])
              (initCreator d1 cn gi gn ci chi))
            (setKey (gi ++ "_" ++ ci) (initCreator d1 cn gi gn ci chi) d0.creators),
          posts := setKey (gi ++ "_" ++ ci)
            (setKey d1 { timestamp := ts, channel := chn, guild := gn } [])
            (setKey (gi ++ "_" ++ ci) [] d0.posts) } := by
      simp only [applyOp, happ, Option.getD_some]
    have hca : lookupKey (gi ++ "_" ++ ci)
        (applyOp d0 (Op.record d1 ts gi ci cn chi gn chn)).creators =
        some (updatedCreator d1 cn
          (setKey d1 { timestamp := ts, channel := chn, guild := gn } [])
          (initCreator d1 cn gi gn ci chi)) := by
      rw [happly]
      exact lookupKey_setKey_self _ _ _
    have hpa : lookupKey (gi ++ "_" ++ ci)
        (applyOp d0 (Op.record d1 ts gi ci cn chi gn chn)).posts =
        some (setKey d1 { timestamp := ts, channel := chn, guild := gn } []) := by
      rw [happly]
      exact lookupKey_setKey_self _ _ _
    have hkeys1 : (setKey d1 { timestamp := ts, channel := chn, guild := gn }
        ([] : List (Nat × PostEntry))).map Prod.fst = [d1] := rfl
    have hprops := updatedCreator_props d1 cn
      (setKey d1 { timestamp := ts, channel := chn, guild := gn } []) (initCreator d1 cn gi gn ci chi)
    have hcs1 : (updatedCreator d1 cn
        (setKey d1 { timestamp := ts, channel := chn, guild := gn } [])
        (initCreator d1 cn gi gn ci chi)).current_streak = runLen [d1] d1 := by
      rw [hprops.1]
      have hnone : (lookupKey (d1 - 1)
          (setKey d1 { timestamp := ts, channel := chn, guild := gn }
            ([] : List (Nat × PostEntry)))).isSome = false := by
        have hne' : ¬(d1 = d1 - 1) := by omega
        simp [setKey, lookupKey, hne']
      rw [hnone]
      have : runLen ([] ++ [d1]) d1 = runLen ([] : List Nat) (d1 - 1) + 1 :=
        runLen_append_gt [] d1 h1 (by intro x hx; cases hx)
      simp only [List.nil_append] at this
      rw [this, runLen_of_not_mem (by intro h; cases h)]
      simp
    have hres := record_credit_fold ts gi ci cn chi gn chn rest
      (applyOp d0 (Op.record d1 ts gi ci cn chi gn chn)) [d1] d1
      (updatedCreator d1 cn (setKey d1 { timestamp := ts, channel := chn, guild := gn } [])
        (initCreator d1 cn gi gn ci chi))
      (setKey d1 { timestamp := ts, channel := chn, guild := gn } [])
      hchain h1 hca hpa hkeys1 hcs1 hprops.2.1
      (by intro x hx; simp only [List.mem_singleton] at hx; omega)
    obtain ⟨c', plog', h1', h2', h3', h4', h5', _⟩ := hres
    refine ⟨c', plog', h1', h2', by simpa using h3', ?_, ?_⟩
    · rw [h5', foldl_const_last rest d1 hne]
    · rw [h4', foldl_const_last rest d1 hne, List.singleton_append]

/-- Witness for C2: credits on days 1, 2 and 4 — the day-3 gap resets
the streak, so after day 4 the streak is `runLen [1, 2, 4] 4 = 1`. -/
theorem streak_contiguity_witness :
    ∃ c plog,
      lookupKey ("g" ++ "_" ++ "c")
        (([1, 2, 4] : List Nat).foldl
          (fun d t => applyOp d (Op.record t "ts" "g" "c" "C" "ch" "G" "chan"))
          freshData).creators = some c ∧
      lookupKey ("g" ++ "_" ++ "c")
        (([1, 2, 4] : List Nat).foldl
          (fun d t => applyOp d (Op.record t "ts" "g" "c" "C" "ch" "G" "chan"))
          freshData).posts = some plog ∧
      plog.map Prod.fst = [1, 2, 4] ∧
      c.last_posted = StoredDate.date (([1, 2, 4] : List Nat).getLast (by decide)) ∧
      c.current_streak = runLen [1, 2, 4] (([1, 2, 4] : List Nat).getLast (by decide)) :=
  streak_contiguity "ts" "g" "c" "C" "ch" "G" "chan" [1, 2, 4] (by decide)
    (by norm_num [List.chain'_cons]) (by decide) freshData rfl rfl
